import Mathlib

/-!
Verification of the goldie golden-file testing library (src/lib.rs, src/tests.rs).

Strings are modelled as `List Char` (named `Str`) and filesystem paths as raw
strings, mirroring Rust `String` / `PathBuf` (an `OsString` on Unix).  The
filesystem, the process environment and the external collaborators (the
template engine, the JSON library, the cargo metadata query) are passed
explicitly, so every operation of the library becomes a pure function.
-/

/-- Model of Rust `String` / `&str` / `PathBuf` contents. -/
abbrev Str := List Char

-- Literal strings used by src/lib.rs, written as character lists.

/-- The literal path component pushed at src/lib.rs:168. -/
def testdataStr : Str := ['t', 'e', 's', 't', 'd', 'a', 't', 'a']

/-- The literal extension set at src/lib.rs:170. -/
def goldenExtStr : Str := ['g', 'o', 'l', 'd', 'e', 'n']

/-- The module separator used by `rsplit_once` at src/lib.rs:164. -/
def sepStr : Str := [':', ':']

/-- A single path separator (Unix). -/
def slashStr : Str := ['/']

/-- A single dot (extension separator). -/
def dotStr : Str := ['.']

/-- The parent-directory component. -/
def dotdotStr : Str := ['.', '.']

/-- The closure marker stripped by the loop at src/lib.rs:137-139,
the characters of the Rust literal with double braces around closure. -/
def closureMarker : Str :=
  [':', ':', '\x7b', '\x7b', 'c', 'l', 'o', 's', 'u', 'r', 'e', '\x7d', '\x7d']

/-- The environment key read at src/lib.rs:175. -/
def goldieUpdateKey : Str :=
  ['G', 'O', 'L', 'D', 'I', 'E', '_', 'U', 'P', 'D', 'A', 'T', 'E']

/-- The literal accepted as true at src/lib.rs:176. -/
def oneStr : Str := ['1']

/-- The literal accepted as true at src/lib.rs:176. -/
def trueStr : Str := ['t', 'r', 'u', 'e']

/-- The environment key read at src/lib.rs:291. -/
def cargoWsKey : Str :=
  ['C', 'A', 'R', 'G', 'O', '_', 'W', 'O', 'R', 'K', 'S', 'P', 'A', 'C', 'E',
   '_', 'D', 'I', 'R']

/-- Model of the process environment: a partial map from variable names to
values, fixed for the lifetime of the process. -/
abbrev EnvMap := Str → Option Str

-- String splitting, mirroring Rust `str::rsplit_once`.

/-- Splits at the first (leftmost) occurrence of `sep`, returning the parts
before and after it.  Helper for `rsplitOnce` (applied to reversed lists). -/
def splitFirst (sep : Str) : Str → Option (Str × Str)
  | [] => if sep = [] then some ([], []) else none
  | c :: rest =>
    if sep.isPrefixOf (c :: rest) then some ([], (c :: rest).drop sep.length)
    else
      match splitFirst sep rest with
      | some (a, b) => some (c :: a, b)
      | none => none

/-- Model of Rust `str::rsplit_once`: splits at the last (rightmost)
occurrence of `sep`, returning the parts before and after it
(src/lib.rs:164). -/
def rsplitOnce (s sep : Str) : Option (Str × Str) :=
  match splitFirst sep.reverse s.reverse with
  | some (a, b) => some (b.reverse, a.reverse)
  | none => none

-- Path operations, mirroring Rust `std::path` on Unix.

/-- Removes trailing path separators (the component-based normalization Rust
`Path` iterators perform on a trailing slash). -/
def dropTrailingSlashes (p : Str) : Str :=
  (p.reverse.dropWhile (fun c => c = '/')).reverse

/-- Model of Rust `Path::parent` on Unix: drops the final component.
Returns `none` for the empty path and for the root (src/lib.rs:167, 188). -/
def parentPath (p : Str) : Option Str :=
  let q := dropTrailingSlashes p
  if q = [] then none
  else
    match rsplitOnce q slashStr with
    | none => some []
    | some (d, _) =>
      let d2 := dropTrailingSlashes d
      if d2 = [] then some slashStr else some d2

/-- Model of Rust `PathBuf::push` on Unix: an absolute path replaces the
buffer, otherwise a separator is inserted unless one is already present
(src/lib.rs:168-169). -/
def pushPath (p s : Str) : Str :=
  if s.head? = some '/' then s
  else if p = [] then s
  else if p.getLast? = some '/' then p ++ s
  else p ++ '/' :: s

/-- Model of Rust `Path::file_stem` on the final component: drops the part
after the last dot unless the component starts with its only dot. -/
def dropExtension (f : Str) : Str :=
  match rsplitOnce f dotStr with
  | some (stem, _) => if stem = [] then f else stem
  | none => f

/-- Model of Rust `PathBuf::set_extension` with a nonempty extension on Unix:
truncates the buffer to the end of the file stem of its final component and
appends a dot and the extension; a path without a file name is returned
unchanged (src/lib.rs:170). -/
def setExtension (p ext : Str) : Str :=
  let q := dropTrailingSlashes p
  match rsplitOnce q slashStr with
  | some (d, f) =>
    if f = [] ∨ f = dotStr ∨ f = dotdotStr then p
    else d ++ '/' :: (dropExtension f ++ '.' :: ext)
  | none =>
    if q = [] ∨ q = dotStr ∨ q = dotdotStr then p
    else dropExtension q ++ '.' :: ext

-- Helper facts about isPrefixOf and isSuffixOf needed for termination.

theorem isPfx_iff (l : Str) : ∀ s : Str, l.isPrefixOf s = true ↔ ∃ t, s = l ++ t := by
  induction l with
  | nil =>
    intro s
    constructor
    · intro _; exact ⟨s, rfl⟩
    · intro _; cases s <;> rfl
  | cons a as ih =>
    intro s
    cases s with
    | nil =>
      simp only [List.isPrefixOf]
      constructor
      · intro h; cases h
      · rintro ⟨t, ht⟩; cases ht
    | cons b bs =>
      simp only [List.isPrefixOf, Bool.and_eq_true, beq_iff_eq]
      constructor
      · rintro ⟨hab, hpre⟩
        obtain ⟨t, ht⟩ := (ih bs).mp hpre
        exact ⟨t, by simp [hab, ht]⟩
      · rintro ⟨t, ht⟩
        injection ht with h1 h2
        exact ⟨h1.symm, (ih bs).mpr ⟨t, h2⟩⟩

theorem isSfx_iff (l s : Str) : l.isSuffixOf s = true ↔ ∃ t, s = t ++ l := by
  show l.reverse.isPrefixOf s.reverse = true ↔ _
  rw [isPfx_iff]
  constructor
  · rintro ⟨t, ht⟩
    refine ⟨t.reverse, ?_⟩
    have := congrArg List.reverse ht
    simpa using this
  · rintro ⟨t, rfl⟩
    exact ⟨t.reverse, by simp⟩

theorem take_len_append (a b : Str) : (a ++ b).take a.length = a := by
  induction a with
  | nil => rfl
  | cons c t ih => simp [ih]

-- The closure-marker stripping loop of the caller-identity macro.

/-- Model of the loop at src/lib.rs:137-139: repeatedly strips a trailing
closure marker from the function path. -/
def stripClosures (s : Str) : Str :=
  if h : closureMarker.isSuffixOf s = true then
    stripClosures (s.take (s.length - closureMarker.length))
  else s
termination_by s.length
decreasing_by
  obtain ⟨t, rfl⟩ := (isSfx_iff closureMarker s).mp h
  simp [List.length_append, closureMarker]

-- The Goldie engine (src/lib.rs:144-183).

/-- Model of `struct Goldie` (src/lib.rs:144-150): the resolved golden file
path and the update flag. -/
structure Goldie where
  golden_file : Str
  update : Bool
deriving DecidableEq

/-- Outcome of `Goldie::new` (src/lib.rs:163-183): either a constructed
engine, or the panic raised by `.unwrap()` on `None`
(`rsplit_once` at line 164, `parent` at line 167). -/
inductive NewResult
  | ok (g : Goldie)
  | panicNone
deriving DecidableEq

/-- The update flag computed at src/lib.rs:174-177:
`matches!(env::var(..).ok().as_deref(), Some("1" | "true"))`. -/
def goldieUpdate (env : EnvMap) : Bool :=
  match env goldieUpdateKey with
  | some v => v == oneStr || v == trueStr
  | none => false

/-- The golden-file path built at src/lib.rs:166-172: parent directory of the
source file, then `testdata`, then the name, with extension set to
`golden`. -/
def mkGoldenFile (dir name : Str) : Str :=
  setExtension (pushPath (pushPath dir testdataStr) name) goldenExtStr

/-- Model of `Goldie::new_impl` (src/lib.rs:163-183).  `panicNone` models the
panics of the two `.unwrap()` calls (no-separator function path at line 164,
parentless source file at line 167). -/
def Goldie.new_impl (env : EnvMap) (source_file function_path : Str) : NewResult :=
  match rsplitOnce function_path sepStr, parentPath source_file with
  | some (_, name), some dir =>
    NewResult.ok ⟨mkGoldenFile dir name, goldieUpdate env⟩
  | _, _ => NewResult.panicNone

/-- The caller-identity pipeline of the entry macros: the raw function path
has trailing closure markers stripped (src/lib.rs:137-139) before being
passed to `Goldie::new` (src/lib.rs:115-121). -/
def resolve (env : EnvMap) (source_file function_path : Str) : NewResult :=
  Goldie.new_impl env source_file (stripClosures function_path)

/-- `k` copies of the closure marker. -/
def markerRep : Nat → Str
  | 0 => []
  | Nat.succ k => closureMarker ++ markerRep k

-- The filesystem model.

/-- Association-list lookup (used for the file map and for the
workspace-root cache). -/
def lookupA : List (Str × Str) → Str → Option Str
  | [], _ => none
  | (k, v) :: rest, p => if k = p then some v else lookupA rest p

/-- Association-list insert-or-replace. -/
def writeA : List (Str × Str) → Str → Str → List (Str × Str)
  | [], p, v => [(p, v)]
  | (k, w) :: rest, p, v =>
    if k = p then (p, v) :: rest else (k, w) :: writeA rest p v

/-- Model of the filesystem visible to the library: file contents plus the
set of directories (`fs::create_dir_all` targets). -/
structure FS where
  files : List (Str × Str)
  dirs : List Str
deriving DecidableEq

/-- Model of `fs::read_to_string` (success case): the stored contents. -/
def lookupFile (fs : FS) (p : Str) : Option Str := lookupA fs.files p

/-- Model of `fs::write`: overwrites the file contents. -/
def writeFile (fs : FS) (p v : Str) : FS := ⟨writeA fs.files p v, fs.dirs⟩

/-- Records one directory as existing. -/
def insertDir (fs : FS) (d : Str) : FS :=
  if d ∈ fs.dirs then fs else ⟨fs.files, d :: fs.dirs⟩

/-- Fuel-driven helper for `createDirAll`. -/
def createDirAllAux : Nat → FS → Str → FS
  | 0, fs, _ => fs
  | Nat.succ n, fs, d =>
    let fs1 := insertDir fs d
    match parentPath d with
    | some q => createDirAllAux n fs1 q
    | none => fs1

/-- Model of `fs::create_dir_all` (src/lib.rs:189): records the directory and
all its ancestors as existing. -/
def createDirAll (fs : FS) (d : Str) : FS := createDirAllAux d.length fs d

/-- Model of Rust `Path::strip_prefix` on Unix (src/lib.rs:199): removes the
base from the front of the path when the base is a component-wise prefix. -/
def stripPrefixPath (base p : Str) : Option Str :=
  if base = p then some []
  else if base.isPrefixOf p then
    let rest := p.drop base.length
    if rest.head? = some '/' then some (rest.drop 1)
    else if base.getLast? = some '/' then some rest
    else none
  else none

-- Outcomes of the assertion operations.

/-- Outcome of the text-based assertions (src/lib.rs:185-235).  `ok` is
`Ok(())`; `errRead` is the `Err` with the failed-to-read context
(src/lib.rs:192-193); `errCompile` and `errRender` are the `Err` results of
the template collaborator (src/lib.rs:219-223); `panicMismatch` is the panic
of `pretty_assertions::assert_eq!` carrying the actual text, the expected
text and the golden path relative to the current directory
(src/lib.rs:194-201); `errStrip` is the `Err` propagated by `?` when
`strip_prefix(current_dir)` fails while the mismatch message is being built
(src/lib.rs:199); `panicNoneUnwrap` is the panic of `parent().unwrap()`
(src/lib.rs:188). -/
inductive TOutcome
  | ok
  | errRead
  | errStrip
  | errCompile
  | errRender
  | panicNoneUnwrap
  | panicMismatch (actual expected relPath : Str)
deriving DecidableEq

/-- Outcome of the JSON assertion (src/lib.rs:237-264), with the mismatch
panic carrying the two compared JSON values. -/
inductive JOutcome (J : Type)
  | ok
  | errRead
  | errStrip
  | errBadJson
  | panicNoneUnwrap
  | panicMismatch (actual expected : J) (relPath : Str)
deriving DecidableEq

/-- Model of `Goldie::assert` (src/lib.rs:185-204).  In update mode the
parent directory is created and the file overwritten with `actual` verbatim;
in verify mode the file is read and compared for exact equality, a mismatch
panicking with both strings and the relativized golden path. -/
def Goldie.assert (g : Goldie) (actual : Str) (cwd : Str) (fs : FS) :
    TOutcome × FS :=
  if g.update then
    match parentPath g.golden_file with
    | none => (TOutcome.panicNoneUnwrap, fs)
    | some dir =>
      (TOutcome.ok, writeFile (createDirAll fs dir) g.golden_file actual)
  else
    match lookupFile fs g.golden_file with
    | none => (TOutcome.errRead, fs)
    | some expected =>
      if actual = expected then (TOutcome.ok, fs)
      else
        match stripPrefixPath cwd g.golden_file with
        | some rel => (TOutcome.panicMismatch actual expected rel, fs)
        | none => (TOutcome.errStrip, fs)

/-- Model of `Goldie::assert_debug` (src/lib.rs:206-209): delegates to
`assert` on the debug rendering of the value; the rendering (the external
`format!` collaborator) is supplied already applied. -/
def Goldie.assert_debug (g : Goldie) (renderedActual : Str) (cwd : Str)
    (fs : FS) : TOutcome × FS :=
  Goldie.assert g renderedActual cwd fs

/-- Model of `Goldie::assert_template` (src/lib.rs:211-235).  The template
engine (the external `upon` collaborator of the spec) is passed as the
`compile` and `render` capabilities.  Note the source never consults
`self.update` in this operation: it always reads, compiles, renders and
compares. -/
def Goldie.assert_template {Tpl Ctx : Type} (compile : Str → Option Tpl)
    (render : Tpl → Ctx → Option Str) (g : Goldie) (ctx : Ctx) (actual : Str)
    (cwd : Str) (fs : FS) : TOutcome × FS :=
  match lookupFile fs g.golden_file with
  | none => (TOutcome.errRead, fs)
  | some contents =>
    match compile contents with
    | none => (TOutcome.errCompile, fs)
    | some t =>
      match render t ctx with
      | none => (TOutcome.errRender, fs)
      | some expected =>
        if actual = expected then (TOutcome.ok, fs)
        else
          match stripPrefixPath cwd g.golden_file with
          | some rel => (TOutcome.panicMismatch actual expected rel, fs)
          | none => (TOutcome.errStrip, fs)

/-- Model of `Goldie::assert_json` (src/lib.rs:237-264).  The JSON library
(the external `serde_json` collaborator of the spec) is passed as the
`parse` capability (`from_str`, producing a comparable value) and the
`serializeVal` capability (`to_string_pretty`); `actualVal` is the already
serialized comparable value of the actual argument (`to_value`).  In verify
mode the parsed golden value and the actual value are compared for
structural equality. -/
def Goldie.assert_json {J : Type} [DecidableEq J] (parse : Str → Option J)
    (serializeVal : J → Str) (g : Goldie) (actualVal : J) (cwd : Str)
    (fs : FS) : JOutcome J × FS :=
  if g.update then
    match parentPath g.golden_file with
    | none => (JOutcome.panicNoneUnwrap, fs)
    | some dir =>
      (JOutcome.ok,
        writeFile (createDirAll fs dir) g.golden_file (serializeVal actualVal))
  else
    match lookupFile fs g.golden_file with
    | none => (JOutcome.errRead, fs)
    | some contents =>
      match parse contents with
      | none => (JOutcome.errBadJson, fs)
      | some expected =>
        if actualVal = expected then (JOutcome.ok, fs)
        else
          match stripPrefixPath cwd g.golden_file with
          | some rel => (JOutcome.panicMismatch actualVal expected rel, fs)
          | none => (JOutcome.errStrip, fs)

-- The workspace-root lookup (src/lib.rs:277-314).

/-- Result of one call to `cargo_workspace_dir`: the returned directory, the
cache after the call, and whether the external cargo-metadata collaborator
was invoked. -/
structure WsResult where
  dir : Str
  cache : List (Str × Str)
  invoked : Bool
deriving DecidableEq

/-- Model of `cargo_workspace_dir` (src/lib.rs:281-314).  The process-wide
`DIRS` map is passed in and returned explicitly; `env` is the process
environment and `metaq` the external cargo-metadata collaborator (the
`workspace_root` field of its response). -/
def cargo_workspace_dir (env : EnvMap) (metaq : Str → Str)
    (cache : List (Str × Str)) (manifestDir : Str) : WsResult :=
  match lookupA cache manifestDir with
  | some dir => ⟨dir, cache, false⟩
  | none =>
    match env cargoWsKey with
    | some v => ⟨v, writeA cache manifestDir v, false⟩
    | none => ⟨metaq manifestDir, writeA cache manifestDir (metaq manifestDir), true⟩

/-- The value `cargo_workspace_dir` computes for a key when it is not yet
cached: the environment override if present, else the collaborator's
answer. -/
def wsValue (env : EnvMap) (metaq : Str → Str) (k : Str) : Str :=
  match env cargoWsKey with
  | some v => v
  | none => metaq k

/-- Cache states reachable with a fixed environment and collaborator: every
cached entry holds the value the lookup would compute afresh. -/
def cacheConsistent (env : EnvMap) (metaq : Str → Str)
    (cache : List (Str × Str)) : Prop :=
  ∀ k d, lookupA cache k = some d → d = wsValue env metaq k

-- A concrete instance of the JSON collaborator, for flat objects of integers.
-- serde_json (without its preserve-order feature) stores objects in a
-- BTreeMap, so parsed objects are key-sorted and equality of values is
-- structural: key order and whitespace in the text are irrelevant.  This
-- model covers the flat-object fragment used by the claims' examples.

/-- Lexicographic order on strings by character code (the BTreeMap key
order). -/
def strLtB : Str → Str → Bool
  | _, [] => false
  | [], _ :: _ => true
  | a :: as, b :: bs =>
    if a.toNat < b.toNat then true
    else if b.toNat < a.toNat then false
    else strLtB as bs

/-- A flat JSON object with integer values, as a key-sorted association
list (the canonical BTreeMap form). -/
abbrev FlatObj := List (Str × Int)

/-- BTreeMap-style insert: sorted position, replacing an existing key. -/
def flatInsert (k : Str) (v : Int) : FlatObj → FlatObj
  | [] => [(k, v)]
  | (k2, v2) :: rest =>
    if k = k2 then (k, v) :: rest
    else if strLtB k k2 then (k, v) :: (k2, v2) :: rest
    else (k2, v2) :: flatInsert k v rest

/-- Drops leading JSON whitespace. -/
def skipSpaces : Str → Str
  | ' ' :: rest => skipSpaces rest
  | '\n' :: rest => skipSpaces rest
  | '\t' :: rest => skipSpaces rest
  | s => s

/-- Parses a double-quoted string without escapes. -/
def parseQuoted : Str → Option (Str × Str)
  | '\x22' :: rest =>
    let k := rest.takeWhile (fun c => ¬ c = '\x22')
    match rest.dropWhile (fun c => ¬ c = '\x22') with
    | '\x22' :: r2 => some (k, r2)
    | _ => none
  | _ => none

/-- Digits to a natural number. -/
def digitsToNat (ds : Str) : Nat :=
  ds.foldl (fun acc c => acc * 10 + (c.toNat - 48)) 0

/-- Parses an optionally signed integer literal. -/
def parseIntTok : Str → Option (Int × Str)
  | '-' :: rest =>
    let ds := rest.takeWhile Char.isDigit
    if ds = [] then none
    else some (-(digitsToNat ds : Int), rest.dropWhile Char.isDigit)
  | s =>
    let ds := s.takeWhile Char.isDigit
    if ds = [] then none
    else some ((digitsToNat ds : Int), s.dropWhile Char.isDigit)

/-- Parses the entries of a flat object after the opening brace, building
the canonical sorted map. -/
def flatEntries : Nat → FlatObj → Str → Option (FlatObj × Str)
  | 0, _, _ => none
  | Nat.succ n, acc, s =>
    match parseQuoted (skipSpaces s) with
    | none => none
    | some (k, r1) =>
      match skipSpaces r1 with
      | ':' :: r3 =>
        match parseIntTok (skipSpaces r3) with
        | none => none
        | some (v, r4) =>
          match skipSpaces r4 with
          | ',' :: r5 => flatEntries n (flatInsert k v acc) r5
          | '\x7d' :: r6 => some (flatInsert k v acc, r6)
          | _ => none
      | _ => none

/-- The `parse` capability of the JSON collaborator on the flat-object
fragment: parses the whole text as one object into canonical sorted form. -/
def flatParse (s : Str) : Option FlatObj :=
  match skipSpaces s with
  | '\x7b' :: r =>
    match skipSpaces r with
    | '\x7d' :: r2 => if skipSpaces r2 = [] then some [] else none
    | _ =>
      match flatEntries (r.length + 1) [] r with
      | some (o, rest) => if skipSpaces rest = [] then some o else none
      | none => none
  | _ => none

/-- Prints an integer. -/
def intToStr (v : Int) : Str :=
  if v < 0 then '-' :: Nat.toDigits 10 v.natAbs else Nat.toDigits 10 v.natAbs

/-- The `to_string_pretty` capability of the JSON collaborator on the
flat-object fragment (compact layout; only its round-trip content matters
to the model). -/
def flatSer (o : FlatObj) : Str :=
  '\x7b' ::
    (List.intercalate [',']
      (o.map (fun kv => '\x22' :: kv.1 ++ '\x22' :: ':' :: intToStr kv.2))
     ++ ['\x7d'])

-- Concrete inputs used by witnesses and counterexamples.  Sources and
-- expectations follow the table in src/tests.rs:5-34.

/-- An empty environment (neither update toggle nor override set). -/
def envNone : EnvMap := fun _ => none

def srcFoo : Str :=
  ['/', 'r', 'e', 'p', 'o', '/', 's', 'r', 'c', '/', 'f', 'o', 'o', '.', 'r', 's']

def fpFoo : Str :=
  ['c', 'r', 'a', 't', 'e', ':', ':', 'f', 'o', 'o', ':', ':', 't', 'e', 's',
   't', 's', ':', ':', 'f', 'u', 'n', 'c']

/-- The golden path the code produces for `srcFoo`/`fpFoo` (the expectation
in src/tests.rs:12-15). -/
def expFoo : Str :=
  ['/', 'r', 'e', 'p', 'o', '/', 's', 'r', 'c', '/', 't', 'e', 's', 't', 'd',
   'a', 't', 'a', '/', 'f', 'u', 'n', 'c', '.', 'g', 'o', 'l', 'd', 'e', 'n']

/-- The golden path the claimed per-module subdirectory rule would produce
for `srcFoo`/`fpFoo`. -/
def expFooSub : Str :=
  ['/', 'r', 'e', 'p', 'o', '/', 's', 'r', 'c', '/', 't', 'e', 's', 't', 'd',
   'a', 't', 'a', '/', 'f', 'o', 'o', '/', 'f', 'u', 'n', 'c', '.', 'g', 'o',
   'l', 'd', 'e', 'n']

def srcLib : Str :=
  ['/', 'r', 'e', 'p', 'o', '/', 's', 'r', 'c', '/', 'l', 'i', 'b', '.', 'r', 's']

def fpLib : Str :=
  ['c', 'r', 'a', 't', 'e', ':', ':', 't', 'e', 's', 't', 's', ':', ':', 'f',
   'u', 'n', 'c']

def dRepoSrc : Str := ['/', 'r', 'e', 'p', 'o', '/', 's', 'r', 'c']

def preFoo : Str :=
  ['c', 'r', 'a', 't', 'e', ':', ':', 'f', 'o', 'o', ':', ':', 't', 'e', 's',
   't', 's']

def nameFunc : Str := ['f', 'u', 'n', 'c']

def fpNoSep : Str := ['m', 'a', 'i', 'n']

def crateStr : Str := ['c', 'r', 'a', 't', 'e']

def testsFunc : Str := ['t', 'e', 's', 't', 's', ':', ':', 'f', 'u', 'n', 'c']

def fpA : Str := ['c', 'r', 'a', 't', 'e', ':', ':', 'a', ':', ':', 'f']

def preA : Str := ['c', 'r', 'a', 't', 'e', ':', ':', 'a']

def fpB : Str := ['x', ':', ':', 'f']

def preB : Str := ['x']

def fpC : Str := ['x', ':', ':', 'g']

def fName : Str := ['f']

def gName : Str := ['g']

def gold4 : Str := ['/', 'w', '/', 't', 'd', '/', 'x', '.', 'g']

def cwd4 : Str := ['/', 'w']

def rel4 : Str := ['t', 'd', '/', 'x', '.', 'g']

def cwdO : Str := ['/', 'o']

def fooStr : Str := ['f', 'o', 'o']

def barStr : Str := ['b', 'a', 'r']

/-- A filesystem whose golden file `gold4` stores the text `bar`. -/
def fs4 : FS := ⟨[(gold4, barStr)], []⟩

def gold1 : Str := ['/', 'g']

def hiStr : Str := ['h', 'i']

/-- A filesystem whose golden file `gold1` stores the text `hi`. -/
def fs1 : FS := ⟨[(gold1, hiStr)], []⟩

def gold7 : Str := ['/', 'r', '/', 't', 'd', '/', 'f', '.', 'g']

def d7 : Str := ['/', 'r', '/', 't', 'd']

def cwd7 : Str := ['/']

/-- An empty filesystem. -/
def fs0 : FS := ⟨[], []⟩

def goldJ : Str := ['/', 'j']

/-- The golden-file text of the JSON example, the object with a mapsto 1 and
b mapsto 2 in that key order. -/
def jsonAB : Str :=
  ['\x7b', '\x22', 'a', '\x22', ':', '1', ',', '\x22', 'b', '\x22', ':', '2',
   '\x7d']

/-- A filesystem whose golden file `goldJ` stores `jsonAB`. -/
def fsJ : FS := ⟨[(goldJ, jsonAB)], []⟩

/-- The canonical parsed value of `jsonAB`. -/
def expectedAB : FlatObj := [(['a'], 1), (['b'], 2)]

/-- The value serialized from an actual whose fields arrive as b mapsto 2
then a mapsto 1 (the reordered object of the claim's example). -/
def actualBA : FlatObj := flatInsert ['a'] 1 (flatInsert ['b'] 2 [])

/-- The value serialized from an actual with b mapsto 3. -/
def actualB3 : FlatObj := flatInsert ['b'] 3 (flatInsert ['a'] 1 [])

def kMan : Str := ['/', 'm']

def wsRoot : Str := ['/', 'w', 's']

/-- An environment with only the workspace-root override set. -/
def env1 : EnvMap := fun s => if s = cargoWsKey then some wsRoot else none

/-- A collaborator answering a fixed other directory. -/
def mq1 : Str → Str := fun _ => ['/', 'x']

-- Helper lemmas about list splitting.

theorem drop_len_append (a b : Str) : (a ++ b).drop a.length = b := by
  induction a with
  | nil => rfl
  | cons c t ih => simp [ih]

theorem sf_some_spec (sep : Str) (hsep : sep ≠ []) :
    ∀ s a b, splitFirst sep s = some (a, b) →
      s = a ++ sep ++ b ∧ ¬ ∃ x y, a = x ++ sep ++ y := by
  intro s
  induction s with
  | nil => intro a b h; simp [splitFirst, hsep] at h
  | cons c rest ih =>
    intro a b h
    by_cases hp : sep.isPrefixOf (c :: rest) = true
    · simp only [splitFirst, if_pos hp, Option.some.injEq, Prod.mk.injEq] at h
      obtain ⟨ha, hb⟩ := h
      obtain ⟨t, ht⟩ := (isPfx_iff sep (c :: rest)).mp hp
      refine ⟨?_, ?_⟩
      · rw [← ha, ← hb, ht, drop_len_append]
        simp
      · rintro ⟨x, y, hxy⟩
        rw [← ha] at hxy
        have := congrArg List.length hxy
        simp [List.length_append] at this
        exact hsep (List.length_eq_zero.mp (by omega))
    · simp only [splitFirst, if_neg hp] at h
      cases hres : splitFirst sep rest with
      | none => rw [hres] at h; cases h
      | some ab =>
        obtain ⟨a2, b2⟩ := ab
        rw [hres] at h
        simp only [Option.some.injEq, Prod.mk.injEq] at h
        obtain ⟨ha, hb⟩ := h
        obtain ⟨hs, hmin⟩ := ih a2 b2 hres
        refine ⟨by rw [← ha, ← hb]; simp [hs], ?_⟩
        rintro ⟨x, y, hxy⟩
        rw [← ha] at hxy
        cases x with
        | nil =>
          simp only [List.nil_append] at hxy
          apply hp
          apply (isPfx_iff sep (c :: rest)).mpr
          refine ⟨y ++ sep ++ b2, ?_⟩
          have hcr : c :: rest = (c :: a2) ++ (sep ++ b2) := by
            simp [hs, List.append_assoc]
          rw [hcr, hxy]
          simp [List.append_assoc]
        | cons x0 xs =>
          injection hxy with h1 h2
          exact hmin ⟨xs, y, h2⟩

theorem sf_none_iff (sep : Str) (hsep : sep ≠ []) :
    ∀ s, splitFirst sep s = none ↔ ¬ ∃ a b, s = a ++ sep ++ b := by
  intro s
  induction s with
  | nil =>
    constructor
    · rintro _ ⟨a, b, hab⟩
      have := congrArg List.length hab
      simp [List.length_append] at this
      exact hsep (List.length_eq_zero.mp (by omega))
    · intro _
      simp [splitFirst, hsep]
  | cons c rest ih =>
    by_cases hp : sep.isPrefixOf (c :: rest) = true
    · constructor
      · intro hnone
        simp only [splitFirst, if_pos hp] at hnone
        exact Option.noConfusion hnone
      · intro hno
        exfalso
        obtain ⟨t, ht⟩ := (isPfx_iff sep (c :: rest)).mp hp
        exact hno ⟨[], t, by simpa using ht⟩
    · constructor
      · intro hnone
        rintro ⟨a, b, hab⟩
        simp only [splitFirst, if_neg hp] at hnone
        cases a with
        | nil =>
          exact hp ((isPfx_iff sep (c :: rest)).mpr ⟨b, by simpa using hab⟩)
        | cons a0 as =>
          injection hab with h1 h2
          cases hres : splitFirst sep rest with
          | none => exact (ih.mp hres) ⟨as, b, h2⟩
          | some ab => rw [hres] at hnone; simp at hnone
      · intro hno
        simp only [splitFirst, if_neg hp]
        cases hres : splitFirst sep rest with
        | none => rfl
        | some ab =>
          obtain ⟨a2, b2⟩ := ab
          exfalso
          obtain ⟨hs, _⟩ := sf_some_spec sep hsep rest a2 b2 hres
          exact hno ⟨c :: a2, b2, by simp [hs]⟩

theorem rsplit_none_iff (s sep : Str) (hsep : sep ≠ []) :
    rsplitOnce s sep = none ↔ ¬ ∃ a b, s = a ++ sep ++ b := by
  have hsepr : sep.reverse ≠ [] := by simpa using hsep
  unfold rsplitOnce
  cases hres : splitFirst sep.reverse s.reverse with
  | none =>
    have hno := (sf_none_iff sep.reverse hsepr s.reverse).mp hres
    constructor
    · rintro _ ⟨a, b, hab⟩
      exact hno ⟨b.reverse, a.reverse,
        by simp [hab, List.reverse_append, List.append_assoc]⟩
    · intro _; rfl
  | some ab =>
    obtain ⟨a, b⟩ := ab
    obtain ⟨hs, _⟩ := sf_some_spec sep.reverse hsepr s.reverse a b hres
    constructor
    · intro hcontra; simp at hcontra
    · intro hno
      exfalso
      apply hno
      refine ⟨b.reverse, a.reverse, ?_⟩
      have := congrArg List.reverse hs
      simpa [List.reverse_append, List.append_assoc] using this

theorem rsplit_some_spec (s sep : Str) (hsep : sep ≠ []) (x y : Str)
    (h : rsplitOnce s sep = some (x, y)) :
    s = x ++ sep ++ y ∧ ¬ ∃ u v, y = u ++ sep ++ v := by
  have hsepr : sep.reverse ≠ [] := by simpa using hsep
  unfold rsplitOnce at h
  cases hres : splitFirst sep.reverse s.reverse with
  | none => rw [hres] at h; cases h
  | some ab =>
    obtain ⟨a, b⟩ := ab
    rw [hres] at h
    simp only [Option.some.injEq, Prod.mk.injEq] at h
    obtain ⟨hx, hy⟩ := h
    obtain ⟨hs, hmin⟩ := sf_some_spec sep.reverse hsepr s.reverse a b hres
    constructor
    · rw [← hx, ← hy]
      have := congrArg List.reverse hs
      simpa [List.reverse_append, List.append_assoc] using this
    · rintro ⟨u, v, huv⟩
      apply hmin
      refine ⟨v.reverse, u.reverse, ?_⟩
      rw [← hy] at huv
      have := congrArg List.reverse huv
      simpa [List.reverse_append, List.append_assoc] using this

theorem sf_single (c : Char) :
    ∀ (m r : Str), c ∉ m → splitFirst [c] (m ++ c :: r) = some (m, r) := by
  intro m
  induction m with
  | nil =>
    intro r _
    simp [splitFirst, List.isPrefixOf]
  | cons d m2 ih =>
    intro r hc
    have hdc : ¬ ([c].isPrefixOf (d :: (m2 ++ c :: r)) = true) := by
      simp only [List.isPrefixOf, Bool.and_eq_true, beq_iff_eq]
      rintro ⟨hcd, -⟩
      exact hc (by simp [hcd])
    have hrec := ih r (fun hm => hc (List.mem_cons_of_mem d hm))
    simp only [List.cons_append, List.append_eq, splitFirst, if_neg hdc, hrec]

theorem rsplit_single (q m : Str) (c : Char) (hc : c ∉ m) :
    rsplitOnce (q ++ c :: m) [c] = some (q, m) := by
  have hrev : (q ++ c :: m).reverse = m.reverse ++ c :: q.reverse := by
    simp [List.reverse_append, List.append_assoc]
  have hc2 : c ∉ m.reverse := by simpa using hc
  unfold rsplitOnce
  rw [show ([c] : Str).reverse = [c] from by rfl, hrev,
    sf_single c m.reverse q.reverse hc2]
  simp

/-- Specialization of `rsplit_single` to the path separator, stated with
`slashStr` for syntactic rewriting. -/
theorem rsplit_slash (q n : Str) (h : '/' ∉ n) :
    rsplitOnce (q ++ '/' :: n) slashStr = some (q, n) :=
  rsplit_single q n '/' h

/-- A dot-free string has no extension split. -/
theorem rsplit_dot_none (n : Str) (h : '.' ∉ n) : rsplitOnce n dotStr = none := by
  apply (rsplit_none_iff n dotStr (by decide)).mpr
  rintro ⟨a, b, hab⟩
  exact h (by rw [hab]; simp [dotStr])

-- Helper lemmas about paths.

theorem glast_cons (c : Char) (l : Str) (hl : l ≠ []) :
    (c :: l).getLast? = l.getLast? := by
  cases l with
  | nil => exact absurd rfl hl
  | cons x xs => rfl

theorem glast_append (a b : Str) (hb : b ≠ []) :
    (a ++ b).getLast? = b.getLast? := by
  induction a with
  | nil => rfl
  | cons c t ih =>
    have hne : t ++ b ≠ [] := by
      intro hx
      exact hb (List.append_eq_nil.mp hx).2
    rw [List.cons_append, glast_cons c (t ++ b) hne, ih]

theorem glast_mem (l : Str) (c : Char) (h : l.getLast? = some c) : c ∈ l := by
  induction l with
  | nil => cases h
  | cons x xs ih =>
    cases xs with
    | nil =>
      have hx : x = c := by
        have : some x = some c := h
        injection this
      simp [hx]
    | cons y ys =>
      rw [glast_cons x (y :: ys) (by simp)] at h
      exact List.mem_cons_of_mem x (ih h)

theorem headq_mem (l : Str) (c : Char) (h : l.head? = some c) : c ∈ l := by
  cases l with
  | nil => cases h
  | cons x xs =>
    have hx : x = c := by
      have : some x = some c := h
      injection this
    simp [hx]

theorem headq_ne_slash (n : Str) (hs : '/' ∉ n) : n.head? ≠ some '/' :=
  fun h => hs (headq_mem n '/' h)

theorem dts_eq_self (p : Str) (h : p.getLast? ≠ some '/') :
    dropTrailingSlashes p = p := by
  unfold dropTrailingSlashes
  cases hr : p.reverse with
  | nil =>
    have hp : p = [] := by
      have := congrArg List.reverse hr
      simpa using this
    simp [hp]
  | cons c t =>
    have hp : p = t.reverse ++ [c] := by
      have := congrArg List.reverse hr
      simpa using this
    have hcp : p.getLast? = some c := by
      rw [hp, glast_append _ _ (by simp)]
      rfl
    have hc : ¬ (c = '/') := fun hcc => h (hcp.trans (by rw [hcc]))
    have hd : List.dropWhile (fun x => decide (x = '/')) (c :: t) = c :: t := by
      simp [hc]
    rw [hd, ← hr, List.reverse_reverse]

theorem push_testdata_spec (d : Str) :
    ∃ q, pushPath d testdataStr = q ++ testdataStr := by
  unfold pushPath
  rw [if_neg (by decide : ¬ (testdataStr.head? = some '/'))]
  by_cases hd : d = []
  · rw [if_pos hd]; exact ⟨[], rfl⟩
  · rw [if_neg hd]
    by_cases hl : d.getLast? = some '/'
    · rw [if_pos hl]; exact ⟨d, rfl⟩
    · rw [if_neg hl]; exact ⟨d ++ ['/'], by simp⟩

theorem pushBase_last (d : Str) :
    (pushPath d testdataStr).getLast? = some 'a' := by
  obtain ⟨q, hq⟩ := push_testdata_spec d
  rw [hq, glast_append q testdataStr (by decide)]
  decide

theorem pushBase_ne_nil (d : Str) : pushPath d testdataStr ≠ [] := by
  obtain ⟨q, hq⟩ := push_testdata_spec d
  rw [hq]
  intro hcontra
  exact absurd (List.append_eq_nil.mp hcontra).2 (by decide)

theorem push_after_base (p n : Str) (hp : p ≠ []) (hlast : p.getLast? ≠ some '/')
    (hn : n.head? ≠ some '/') : pushPath p n = p ++ '/' :: n := by
  unfold pushPath
  rw [if_neg hn, if_neg hp, if_neg hlast]

theorem setExt_clean (q n ext : Str) (hn : n ≠ []) (hslash : '/' ∉ n)
    (hdot : '.' ∉ n) :
    setExtension (q ++ '/' :: n) ext = q ++ '/' :: (n ++ '.' :: ext) := by
  have hlastn : (q ++ '/' :: n).getLast? ≠ some '/' := by
    rw [glast_append q ('/' :: n) (by simp), glast_cons '/' n hn]
    intro hcontra
    exact hslash (glast_mem n '/' hcontra)
  have hdts : dropTrailingSlashes (q ++ '/' :: n) = q ++ '/' :: n :=
    dts_eq_self _ hlastn
  have hguard : ¬ ((n : Str) = [] ∨ n = dotStr ∨ n = dotdotStr) := by
    rintro (h1 | h2 | h3)
    · exact hn h1
    · exact hdot (by rw [h2]; simp [dotStr])
    · exact hdot (by rw [h3]; simp [dotdotStr])
  have hdrop : dropExtension n = n := by
    unfold dropExtension
    rw [rsplit_dot_none n hdot]
  simp only [setExtension]
  rw [hdts, rsplit_slash q n hslash]
  show (if n = [] ∨ n = dotStr ∨ n = dotdotStr then q ++ '/' :: n
      else q ++ '/' :: (dropExtension n ++ '.' :: ext)) =
    q ++ '/' :: (n ++ '.' :: ext)
  rw [if_neg hguard, hdrop]

theorem mkGolden_clean (d n : Str) (hn : n ≠ []) (hslash : '/' ∉ n)
    (hdot : '.' ∉ n) :
    mkGoldenFile d n =
      pushPath d testdataStr ++ '/' :: (n ++ '.' :: goldenExtStr) := by
  unfold mkGoldenFile
  rw [push_after_base (pushPath d testdataStr) n (pushBase_ne_nil d)
    (by rw [pushBase_last d]; decide) (headq_ne_slash n hslash)]
  exact setExt_clean (pushPath d testdataStr) n goldenExtStr hn hslash hdot

theorem mkGolden_ne (d n1 n2 : Str) (hn1 : n1 ≠ []) (hs1 : '/' ∉ n1)
    (hd1 : '.' ∉ n1) (hn2 : n2 ≠ []) (hs2 : '/' ∉ n2) (hd2 : '.' ∉ n2)
    (hne : n1 ≠ n2) : mkGoldenFile d n1 ≠ mkGoldenFile d n2 := by
  rw [mkGolden_clean d n1 hn1 hs1 hd1, mkGolden_clean d n2 hn2 hs2 hd2]
  intro hcontra
  have h2 : '/' :: (n1 ++ '.' :: goldenExtStr) =
      '/' :: (n2 ++ '.' :: goldenExtStr) := by
    have h4 := congrArg (fun l => List.drop (pushPath d testdataStr).length l)
      hcontra
    simpa [drop_len_append] using h4
  injection h2 with _ h3
  have hlen : n1.length = n2.length := by
    have h5 := congrArg List.length h3
    simp [List.length_append] at h5
    omega
  have heq : n1 = n2 := by
    have h6 := congrArg (fun l => List.take n1.length l) h3
    simp only [take_len_append] at h6
    rw [hlen] at h6
    rw [take_len_append] at h6
    exact h6
  exact hne heq

-- Helper lemmas about closure stripping.

theorem stripClosures_append (s : Str) :
    stripClosures (s ++ closureMarker) = stripClosures s := by
  have hsfx : closureMarker.isSuffixOf (s ++ closureMarker) = true :=
    (isSfx_iff closureMarker (s ++ closureMarker)).mpr ⟨s, rfl⟩
  conv_lhs => rw [stripClosures]
  rw [dif_pos hsfx]
  have hlen : (s ++ closureMarker).length - closureMarker.length = s.length := by
    simp [List.length_append]
  rw [hlen, take_len_append]

theorem stripClosures_markerRep (k : Nat) :
    ∀ s : Str, stripClosures (s ++ markerRep k) = stripClosures s := by
  induction k with
  | zero => intro s; simp [markerRep]
  | succ m ih =>
    intro s
    have hassoc : s ++ markerRep (m + 1) = (s ++ closureMarker) ++ markerRep m := by
      simp [markerRep, List.append_assoc]
    rw [hassoc, ih (s ++ closureMarker), stripClosures_append]

-- Helper lemmas about the association-list maps.

theorem lookupA_writeA_self (l : List (Str × Str)) (p v : Str) :
    lookupA (writeA l p v) p = some v := by
  induction l with
  | nil => simp [writeA, lookupA]
  | cons kv rest ih =>
    obtain ⟨k, w⟩ := kv
    by_cases hk : k = p
    · simp [writeA, hk, lookupA]
    · simp [writeA, hk, lookupA, ih]

theorem lookupA_writeA (l : List (Str × Str)) (p v q : Str) :
    lookupA (writeA l p v) q = if p = q then some v else lookupA l q := by
  induction l with
  | nil => simp [writeA, lookupA]
  | cons kv rest ih =>
    obtain ⟨k, w⟩ := kv
    by_cases hk : k = p
    · subst hk
      by_cases hq : k = q
      · simp [writeA, lookupA, hq]
      · simp [writeA, lookupA, hq]
    · by_cases hq : k = q
      · have hpq : ¬ (p = q) := fun hx => hk (by rw [hx, hq])
        have hqp : ¬ (q = p) := fun hx => hpq hx.symm
        simp [writeA, hk, lookupA, hq, hpq, hqp]
      · simp [writeA, hk, lookupA, hq, ih]

-- Helper lemmas about directory creation.

theorem insertDir_files (fs : FS) (d : Str) : (insertDir fs d).files = fs.files := by
  unfold insertDir
  split <;> rfl

theorem createDirAllAux_files :
    ∀ (n : Nat) (fs : FS) (d : Str), (createDirAllAux n fs d).files = fs.files := by
  intro n
  induction n with
  | zero => intro fs d; rfl
  | succ m ih =>
    intro fs d
    unfold createDirAllAux
    cases hp : parentPath d with
    | some q => simp [hp, ih, insertDir_files]
    | none => simp [hp, insertDir_files]

theorem createDirAll_files (fs : FS) (d : Str) :
    (createDirAll fs d).files = fs.files :=
  createDirAllAux_files d.length fs d

-- Helper lemmas about the workspace-root cache.

theorem cacheConsistent_nil (env : EnvMap) (metaq : Str → Str) :
    cacheConsistent env metaq [] := by
  intro k d h
  simp [lookupA] at h

theorem cwd_preserves_consistent (env : EnvMap) (metaq : Str → Str)
    (cache : List (Str × Str)) (k : Str)
    (hc : cacheConsistent env metaq cache) :
    cacheConsistent env metaq (cargo_workspace_dir env metaq cache k).cache := by
  unfold cargo_workspace_dir
  cases hl : lookupA cache k with
  | some dir => exact hc
  | none =>
    cases he : env cargoWsKey with
    | some v =>
      intro k2 d2 h2
      have h3 : lookupA (writeA cache k v) k2 = some d2 := h2
      rw [lookupA_writeA] at h3
      by_cases hkk : k = k2
      · rw [if_pos hkk] at h3
        injection h3 with h4
        rw [← h4]
        unfold wsValue
        rw [he]
      · rw [if_neg hkk] at h3
        exact hc k2 d2 h3
    | none =>
      intro k2 d2 h2
      have h3 : lookupA (writeA cache k (metaq k)) k2 = some d2 := h2
      rw [lookupA_writeA] at h3
      by_cases hkk : k = k2
      · rw [if_pos hkk] at h3
        injection h3 with h4
        rw [← h4, ← hkk]
        unfold wsValue
        rw [he]
      · rw [if_neg hkk] at h3
        exact hc k2 d2 h3

-- Claim theorems.

/-- Claim C1, corrected.  The claim says the templated comparison in Update
mode returns an UnsupportedOperation error; in the source (src/lib.rs:211-235)
`assert_template` never consults `self.update`, so the operation behaves
identically in Update and Verify mode, performing the template verification
in both. -/
theorem assert_template_ignores_update_mode (Tpl Ctx : Type)
    (compile : Str → Option Tpl) (render : Tpl → Ctx → Option Str)
    (golden : Str) (u1 u2 : Bool) (ctx : Ctx) (actual cwd : Str) (fs : FS) :
    Goldie.assert_template compile render ⟨golden, u1⟩ ctx actual cwd fs =
      Goldie.assert_template compile render ⟨golden, u2⟩ ctx actual cwd fs :=
  rfl

/-- Claim C1 counterexample: a concrete Update-mode engine whose golden file
content equals the actual string; the templated comparison returns success,
not an UnsupportedOperation error. -/
theorem assert_template_update_mode_cex :
    Goldie.assert_template (fun s => some s) (fun t (_ : Unit) => some t)
      ⟨gold1, true⟩ () hiStr cwdO fs1 = (TOutcome.ok, fs1) :=
  rfl

/-- Claim C2, corrected.  The claim says a non-root-module source base name
inserts a subdirectory named after it between `testdata` and the golden file
name; the source (src/lib.rs:166-172) never does: for every source file with
a parent and every function path with an identifier-like terminal name, the
golden path is the source directory joined with `testdata` joined directly
with the name plus the `.golden` extension, regardless of the base name. -/
theorem golden_path_no_module_subdir (env : EnvMap)
    (src fp d pre name : Str) (hd : parentPath src = some d)
    (hr : rsplitOnce fp sepStr = some (pre, name)) (hn : name ≠ [])
    (hs : '/' ∉ name) (hdot : '.' ∉ name) :
    Goldie.new_impl env src fp =
      NewResult.ok ⟨pushPath d testdataStr ++ '/' ::
        (name ++ '.' :: goldenExtStr), goldieUpdate env⟩ := by
  simp only [Goldie.new_impl, hr, hd]
  rw [mkGolden_clean d name hn hs hdot]

/-- Claim C2 counterexample: for source `/repo/src/foo.rs` (base name `foo`,
not a root-module name) the code resolves to
`/repo/src/testdata/func.golden`, which differs from the claimed
`/repo/src/testdata/foo/func.golden` (this matches the repository's own test
src/tests.rs:12-15). -/
theorem golden_path_module_subdir_cex :
    Goldie.new_impl envNone srcFoo fpFoo = NewResult.ok ⟨expFoo, false⟩ ∧
    expFoo ≠ expFooSub := by
  exact ⟨rfl, by decide⟩

/-- Claim C2 witness: the corrected statement evaluated at the repository's
own test vector. -/
theorem golden_path_no_module_subdir_witness :
    Goldie.new_impl envNone srcFoo fpFoo =
      NewResult.ok ⟨pushPath dRepoSrc testdataStr ++ '/' ::
        (nameFunc ++ '.' :: goldenExtStr), goldieUpdate envNone⟩ :=
  golden_path_no_module_subdir envNone srcFoo fpFoo dRepoSrc preFoo nameFunc
    rfl rfl (by decide) (by decide) (by decide)

/-- Claim C3, corrected.  The claim says construction returns a
MalformedIdentifier error value when the function path has no separator; the
source (src/lib.rs:164) calls `.unwrap()` and panics instead — no error
value exists.  With at least one separator, construction succeeds and the
substring after the last separator becomes the golden file stem. -/
theorem new_impl_separator_behavior (env : EnvMap) (src fp : Str) :
    ((¬ ∃ a b, fp = a ++ sepStr ++ b) →
      Goldie.new_impl env src fp = NewResult.panicNone) ∧
    ((∃ a b, fp = a ++ sepStr ++ b) →
      ∃ pre name, fp = pre ++ sepStr ++ name ∧
        (¬ ∃ u v, name = u ++ sepStr ++ v) ∧
        ∀ d, parentPath src = some d →
          Goldie.new_impl env src fp =
            NewResult.ok ⟨mkGoldenFile d name, goldieUpdate env⟩) := by
  constructor
  · intro hno
    have hnone : rsplitOnce fp sepStr = none :=
      (rsplit_none_iff fp sepStr (by decide)).mpr hno
    cases hps : parentPath src <;> simp [Goldie.new_impl, hnone, hps]
  · rintro ⟨a, b, hab⟩
    cases hres : rsplitOnce fp sepStr with
    | none =>
      exact absurd ⟨a, b, hab⟩ ((rsplit_none_iff fp sepStr (by decide)).mp hres)
    | some xy =>
      obtain ⟨x, y⟩ := xy
      obtain ⟨hdecomp, hmin⟩ := rsplit_some_spec fp sepStr (by decide) x y hres
      refine ⟨x, y, hdecomp, hmin, ?_⟩
      intro d hdd
      simp only [Goldie.new_impl, hres, hdd]

/-- Claim C3 counterexample: at the separator-free function path `func` the
construction panics (`unwrap` of `None`); it does not return an error
value — the model's only outcomes are a constructed engine or this panic. -/
theorem new_impl_no_separator_cex :
    Goldie.new_impl envNone srcFoo nameFunc = NewResult.panicNone :=
  rfl

/-- Claim C3 witness: the corrected statement evaluated at concrete inputs,
covering both the separator-free panic and the successful qualified case. -/
theorem new_impl_separator_witness :
    Goldie.new_impl envNone srcLib fpNoSep = NewResult.panicNone ∧
    (∃ pre name, fpLib = pre ++ sepStr ++ name ∧
      (¬ ∃ u v, name = u ++ sepStr ++ v) ∧
      ∀ d, parentPath srcLib = some d →
        Goldie.new_impl envNone srcLib fpLib =
          NewResult.ok ⟨mkGoldenFile d name, goldieUpdate envNone⟩) :=
  ⟨(new_impl_separator_behavior envNone srcLib fpNoSep).1
      ((rsplit_none_iff fpNoSep sepStr (by decide)).mp rfl),
   (new_impl_separator_behavior envNone srcLib fpLib).2
      ⟨crateStr, testsFunc, by decide⟩⟩

/-- Claim C4, corrected.  In Verify mode, success holds exactly when the
actual text equals the stored text.  On inequality: when the golden path is
under the current directory the operation fails with the mismatch panic
carrying the actual text, the expected text and the relativized path; the
claim's remaining case is false — when the path cannot be relativized the
`?` on `strip_prefix` (src/lib.rs:199) aborts with a bare path error that
carries neither string, instead of a Mismatch with an absolute path. -/
theorem assert_verify_mismatch_behavior (golden actual cwd : Str) (fs : FS)
    (expected : Str) (hlook : lookupFile fs golden = some expected) :
    (((Goldie.assert ⟨golden, false⟩ actual cwd fs).1 = TOutcome.ok) ↔
      actual = expected) ∧
    (actual ≠ expected →
      (∀ rel, stripPrefixPath cwd golden = some rel →
        Goldie.assert ⟨golden, false⟩ actual cwd fs =
          (TOutcome.panicMismatch actual expected rel, fs)) ∧
      (stripPrefixPath cwd golden = none →
        Goldie.assert ⟨golden, false⟩ actual cwd fs =
          (TOutcome.errStrip, fs))) := by
  constructor
  · constructor
    · intro hok
      by_contra hne
      cases hsp : stripPrefixPath cwd golden with
      | some rel => simp [Goldie.assert, hlook, hne, hsp] at hok
      | none => simp [Goldie.assert, hlook, hne, hsp] at hok
    · intro heq
      simp [Goldie.assert, hlook, heq]
  · intro hne
    constructor
    · intro rel hsp
      simp [Goldie.assert, hlook, hne, hsp]
    · intro hsp
      simp [Goldie.assert, hlook, hne, hsp]

/-- Claim C4 counterexample: with the golden file outside the current
directory, comparing unequal texts yields the bare strip-prefix error, an
outcome that carries neither the actual nor the expected string — not a
Mismatch value. -/
theorem assert_verify_mismatch_cex :
    Goldie.assert ⟨gold4, false⟩ fooStr cwdO fs4 = (TOutcome.errStrip, fs4) ∧
    (∀ a e r, TOutcome.errStrip ≠ TOutcome.panicMismatch a e r) := by
  refine ⟨rfl, ?_⟩
  intro a e r h
  exact TOutcome.noConfusion h

/-- Claim C4 witness: the corrected statement evaluated concretely — actual
`foo` against stored `bar` under cwd `/w` panics with both strings and the
relative path `td/x.g`, and asserting the stored text succeeds. -/
theorem assert_verify_mismatch_witness :
    Goldie.assert ⟨gold4, false⟩ fooStr cwd4 fs4 =
      (TOutcome.panicMismatch fooStr barStr rel4, fs4) ∧
    (Goldie.assert ⟨gold4, false⟩ barStr cwd4 fs4).1 = TOutcome.ok :=
  ⟨((assert_verify_mismatch_behavior gold4 fooStr cwd4 fs4 barStr rfl).2
      (by decide)).1 rel4 rfl,
   (assert_verify_mismatch_behavior gold4 barStr cwd4 fs4 barStr rfl).1.mpr rfl⟩

/-- Claim C5, confirmed.  For a fixed source path (and environment), calls
whose function paths share the terminal segment produce identical results,
hence the same GoldenPath; and distinct identifier-like terminal function
names produce engines with distinct GoldenPaths. -/
theorem golden_path_determined_by_terminal_name (env : EnvMap)
    (src fp1 fp2 a1 a2 n1 n2 : Str)
    (h1 : rsplitOnce fp1 sepStr = some (a1, n1))
    (h2 : rsplitOnce fp2 sepStr = some (a2, n2)) :
    (n1 = n2 → Goldie.new_impl env src fp1 = Goldie.new_impl env src fp2) ∧
    (∀ d, parentPath src = some d → n1 ≠ [] → '/' ∉ n1 → '.' ∉ n1 →
      n2 ≠ [] → '/' ∉ n2 → '.' ∉ n2 → n1 ≠ n2 →
      ∃ g1 g2, Goldie.new_impl env src fp1 = NewResult.ok g1 ∧
        Goldie.new_impl env src fp2 = NewResult.ok g2 ∧
        g1.golden_file ≠ g2.golden_file) := by
  constructor
  · intro hnn
    subst hnn
    cases hps : parentPath src <;> simp [Goldie.new_impl, h1, h2, hps]
  · intro d hd hn1 hs1 hd1 hn2 hs2 hd2 hne
    refine ⟨⟨mkGoldenFile d n1, goldieUpdate env⟩,
      ⟨mkGoldenFile d n2, goldieUpdate env⟩, ?_, ?_, ?_⟩
    · simp [Goldie.new_impl, h1, hd]
    · simp [Goldie.new_impl, h2, hd]
    · exact mkGolden_ne d n1 n2 hn1 hs1 hd1 hn2 hs2 hd2 hne

/-- Claim C5 witness: `crate::a::f` and `x::f` resolve identically under
`/repo/src/lib.rs`, while `x::f` and `x::g` resolve to distinct golden
paths. -/
theorem golden_path_terminal_name_witness :
    Goldie.new_impl envNone srcLib fpA = Goldie.new_impl envNone srcLib fpB ∧
    (∃ g1 g2, Goldie.new_impl envNone srcLib fpB = NewResult.ok g1 ∧
      Goldie.new_impl envNone srcLib fpC = NewResult.ok g2 ∧
      g1.golden_file ≠ g2.golden_file) :=
  ⟨(golden_path_determined_by_terminal_name envNone srcLib fpA fpB preA preB
      fName fName rfl rfl).1 rfl,
   (golden_path_determined_by_terminal_name envNone srcLib fpB fpC preB preB
      fName gName rfl rfl).2 dRepoSrc rfl (by decide) (by decide) (by decide)
      (by decide) (by decide) (by decide) (by decide)⟩

/-- Claim C6, confirmed.  In Verify mode, with the golden file readable and
parseable, the JSON comparison succeeds exactly when the value parsed from
the golden file equals (structurally, as canonical comparable values) the
value serialized from the actual argument. -/
theorem assert_json_structural_equality (J : Type) [DecidableEq J]
    (parse : Str → Option J) (ser : J → Str) (golden cwd contents : Str)
    (fs : FS) (expected actualVal : J)
    (hlook : lookupFile fs golden = some contents)
    (hparse : parse contents = some expected) :
    ((Goldie.assert_json parse ser ⟨golden, false⟩ actualVal cwd fs).1 =
      JOutcome.ok) ↔ actualVal = expected := by
  constructor
  · intro hok
    by_contra hne
    cases hsp : stripPrefixPath cwd golden with
    | some rel => simp [Goldie.assert_json, hlook, hparse, hne, hsp] at hok
    | none => simp [Goldie.assert_json, hlook, hparse, hne, hsp] at hok
  · intro heq
    simp [Goldie.assert_json, hlook, hparse, heq]

/-- Claim C6 witness: a golden file storing the text of the object a mapsto
1, b mapsto 2 matches an actual serializing with keys in the order b then a
(key order irrelevant), and does not match an actual with b mapsto 3. -/
theorem assert_json_structural_equality_witness :
    ((Goldie.assert_json flatParse flatSer ⟨goldJ, false⟩ actualBA cwdO
        fsJ).1 = JOutcome.ok) ∧
    ¬ ((Goldie.assert_json flatParse flatSer ⟨goldJ, false⟩ actualB3 cwdO
        fsJ).1 = JOutcome.ok) :=
  ⟨(assert_json_structural_equality FlatObj flatParse flatSer goldJ cwdO
      jsonAB fsJ expectedAB actualBA rfl rfl).mpr (by decide),
   fun h => absurd ((assert_json_structural_equality FlatObj flatParse flatSer
      goldJ cwdO jsonAB fsJ expectedAB actualB3 rfl rfl).mp h) (by decide)⟩

/-- Claim C7, confirmed.  For any golden path with a parent: the Update-mode
text operation creates the parent directory, writes the actual text verbatim
and succeeds, and immediately verifying the same actual text against the
updated state succeeds with the state unchanged. -/
theorem assert_update_then_verify_roundtrip (golden actual cwd : Str)
    (fs : FS) (d : Str) (hd : parentPath golden = some d) :
    Goldie.assert ⟨golden, true⟩ actual cwd fs =
      (TOutcome.ok, writeFile (createDirAll fs d) golden actual) ∧
    Goldie.assert ⟨golden, false⟩ actual cwd
        (Goldie.assert ⟨golden, true⟩ actual cwd fs).2 =
      (TOutcome.ok, (Goldie.assert ⟨golden, true⟩ actual cwd fs).2) := by
  have hstep : Goldie.assert ⟨golden, true⟩ actual cwd fs =
      (TOutcome.ok, writeFile (createDirAll fs d) golden actual) := by
    simp [Goldie.assert, hd]
  refine ⟨hstep, ?_⟩
  rw [hstep]
  have hlook : lookupFile (writeFile (createDirAll fs d) golden actual)
      golden = some actual := by
    unfold lookupFile writeFile
    exact lookupA_writeA_self _ golden actual
  simp [Goldie.assert, hlook]

/-- Claim C7 witness: the round trip evaluated on an empty filesystem with a
concrete golden path. -/
theorem assert_roundtrip_witness :
    Goldie.assert ⟨gold7, true⟩ hiStr cwd7 fs0 =
      (TOutcome.ok, writeFile (createDirAll fs0 d7) gold7 hiStr) ∧
    Goldie.assert ⟨gold7, false⟩ hiStr cwd7
        (Goldie.assert ⟨gold7, true⟩ hiStr cwd7 fs0).2 =
      (TOutcome.ok, (Goldie.assert ⟨gold7, true⟩ hiStr cwd7 fs0).2) :=
  assert_update_then_verify_roundtrip gold7 hiStr cwd7 fs0 d7 rfl

/-- Claim C8, confirmed.  Resolution (closure stripping followed by
construction) of a function path with any number of trailing closure
markers appended equals resolution of the path without them. -/
theorem resolve_strips_closure_markers (env : EnvMap) (src fp : Str)
    (k : Nat) : resolve env src (fp ++ markerRep k) = resolve env src fp := by
  unfold resolve
  rw [stripClosures_markerRep k fp]

/-- Claim C9, confirmed.  A second lookup of a cached key returns the same
directory and cache without invoking the metadata collaborator; and whenever
the environment override is set, the collaborator is never invoked and (on
any cache consistent with the fixed environment, e.g. any cache reachable
from the empty one) the override's value is returned. -/
theorem cargo_workspace_dir_cache_and_override (env : EnvMap)
    (metaq : Str → Str) (cache : List (Str × Str)) (k : Str) :
    ((cargo_workspace_dir env metaq
        (cargo_workspace_dir env metaq cache k).cache k).dir =
      (cargo_workspace_dir env metaq cache k).dir ∧
     (cargo_workspace_dir env metaq
        (cargo_workspace_dir env metaq cache k).cache k).cache =
      (cargo_workspace_dir env metaq cache k).cache ∧
     (cargo_workspace_dir env metaq
        (cargo_workspace_dir env metaq cache k).cache k).invoked = false) ∧
    (∀ v, env cargoWsKey = some v →
      (cargo_workspace_dir env metaq cache k).invoked = false ∧
      (cacheConsistent env metaq cache →
        (cargo_workspace_dir env metaq cache k).dir = v)) := by
  constructor
  · cases hl : lookupA cache k with
    | some dir =>
      refine ⟨?_, ?_, ?_⟩ <;> simp [cargo_workspace_dir, hl]
    | none =>
      cases he : env cargoWsKey with
      | some v =>
        have hself : lookupA (writeA cache k v) k = some v :=
          lookupA_writeA_self cache k v
        refine ⟨?_, ?_, ?_⟩ <;> simp [cargo_workspace_dir, hl, he, hself]
      | none =>
        have hself : lookupA (writeA cache k (metaq k)) k = some (metaq k) :=
          lookupA_writeA_self cache k (metaq k)
        refine ⟨?_, ?_, ?_⟩ <;> simp [cargo_workspace_dir, hl, he, hself]
  · intro v hv
    cases hl : lookupA cache k with
    | some dir =>
      refine ⟨by simp [cargo_workspace_dir, hl], ?_⟩
      intro hc
      have hdir := hc k dir hl
      simp [cargo_workspace_dir, hl, hdir, wsValue, hv]
    | none =>
      refine ⟨by simp [cargo_workspace_dir, hl, hv], ?_⟩
      intro _
      simp [cargo_workspace_dir, hl, hv]

/-- Claim C9 witness: with the override set to `/ws` and an empty cache, the
lookup returns `/ws` without invoking the collaborator, and the immediate
second lookup is served from the cache without invoking it either. -/
theorem cargo_workspace_dir_witness :
    (cargo_workspace_dir env1 mq1 [] kMan).invoked = false ∧
    (cargo_workspace_dir env1 mq1 [] kMan).dir = wsRoot ∧
    (cargo_workspace_dir env1 mq1
        (cargo_workspace_dir env1 mq1 [] kMan).cache kMan).invoked = false := by
  have h := cargo_workspace_dir_cache_and_override env1 mq1 [] kMan
  obtain ⟨⟨-, -, hsecond⟩, hover⟩ := h
  have henv1 : env1 cargoWsKey = some wsRoot := by decide
  have h2 := hover wsRoot henv1
  exact ⟨h2.1, h2.2 (cacheConsistent_nil env1 mq1), hsecond⟩

/-- Claim C10, confirmed.  In Verify mode (and, for the templated variant,
in either mode) none of the four assertion operations changes the
filesystem: no file or directory is created, written or deleted, whether
the operation succeeds or fails. -/
theorem verify_mode_preserves_filesystem (Tpl Ctx J : Type)
    [DecidableEq J] (compile : Str → Option Tpl)
    (render : Tpl → Ctx → Option Str) (parse : Str → Option J)
    (ser : J → Str) (golden : Str) (u : Bool) (actualT actualD : Str)
    (ctx : Ctx) (actualTpl : Str) (actualJ : J) (cwd : Str) (fs : FS) :
    (Goldie.assert ⟨golden, false⟩ actualT cwd fs).2 = fs ∧
    (Goldie.assert_debug ⟨golden, false⟩ actualD cwd fs).2 = fs ∧
    (Goldie.assert_template compile render ⟨golden, u⟩ ctx actualTpl cwd
      fs).2 = fs ∧
    (Goldie.assert_json parse ser ⟨golden, false⟩ actualJ cwd fs).2 = fs := by
  have hassert : ∀ a : Str, (Goldie.assert ⟨golden, false⟩ a cwd fs).2 = fs := by
    intro a
    cases hl : lookupFile fs golden with
    | none => simp [Goldie.assert, hl]
    | some e =>
      by_cases he : a = e
      · simp [Goldie.assert, hl, he]
      · cases hsp : stripPrefixPath cwd golden with
        | some rel => simp [Goldie.assert, hl, he, hsp]
        | none => simp [Goldie.assert, hl, he, hsp]
  refine ⟨hassert actualT, hassert actualD, ?_, ?_⟩
  · cases hl : lookupFile fs golden with
    | none => simp [Goldie.assert_template, hl]
    | some contents =>
      cases hcp : compile contents with
      | none => simp [Goldie.assert_template, hl, hcp]
      | some t =>
        cases hrd : render t ctx with
        | none => simp [Goldie.assert_template, hl, hcp, hrd]
        | some e =>
          by_cases he : actualTpl = e
          · simp [Goldie.assert_template, hl, hcp, hrd, he]
          · cases hsp : stripPrefixPath cwd golden with
            | some rel =>
              simp [Goldie.assert_template, hl, hcp, hrd, he, hsp]
            | none => simp [Goldie.assert_template, hl, hcp, hrd, he, hsp]
  · cases hl : lookupFile fs golden with
    | none => simp [Goldie.assert_json, hl]
    | some contents =>
      cases hps : parse contents with
      | none => simp [Goldie.assert_json, hl, hps]
      | some e =>
        by_cases he : actualJ = e
        · simp [Goldie.assert_json, hl, hps, he]
        · cases hsp : stripPrefixPath cwd golden with
          | some rel => simp [Goldie.assert_json, hl, hps, he, hsp]
          | none => simp [Goldie.assert_json, hl, hps, he, hsp]
